import Mathlib

/-!
Shallow embedding of the codecrafters shell (TypeScript sources under
src/app and src/unnamed) and proofs about its tokenizer, redirection
extractor, command resolver, builtin dispatch, history persistence and
pipeline orchestration.

Conventions of the embedding:
* JavaScript strings are Lean `String`s; an `undefined` list index is
  modelled with `List.getD _ _ ""` (both `undefined` and `""` are falsy in
  every guard the source uses, so they behave identically downstream).
* `console.log s` is the event `Event.printLine s` (the terminal receives
  `s` followed by a newline); `process.stdout.write s` is
  `Event.stdoutWrite s`; spawning a child process is
  `Event.spawnProcess path args`; `process.exit c` is `Event.exitShell c`.
* The stat-able filesystem used by PATH resolution is an association list
  from absolute paths to `FileStat`; the content filesystem used by
  history and redirection files is an association list from paths to their
  string contents.  External process behaviour is an oracle function
  `path → args → stdin → stdout` carried in `Env`.
-/

namespace Shell

/-- Result of `fs.statSync` on a path that exists. -/
structure FileStat where
  isFile : Bool
  mode : Nat
deriving DecidableEq

/-- Ambient execution environment: stat-filesystem, `PATH`, `HISTFILE`,
and the behaviour of external programs. -/
structure Env where
  fs : List (String × FileStat)
  pathVar : Option String
  histfile : Option String
  oracle : String → List String → String → String

/-- Session state threaded through builtin handlers: the in-memory
history list, the index of the last history entry persisted by a
`history -a` flush, and the contents of writable files. -/
structure ShellState where
  commandHistory : List String
  lastAppendedIndex : Nat
  files : List (String × String)
deriving DecidableEq

/-- Observable actions of the shell. -/
inductive Event where
  | printLine (s : String)
  | stdoutWrite (s : String)
  | spawnProcess (cmdPath : String) (args : List String)
  | exitShell (code : Int)
deriving DecidableEq

/-- Whether an event is a `process.exit`. -/
def Event.isExitEvent : Event → Bool
  | .exitShell _ => true
  | _ => false

/-- Whether an event is a child-process spawn. -/
def Event.isSpawnEvent : Event → Bool
  | .spawnProcess _ _ => true
  | _ => false

/-- Lookup of a file's contents in the content filesystem. -/
def lookupFile (files : List (String × String)) (p : String) : Option String :=
  (files.find? (fun e => e.1 == p)).map (fun e => e.2)

/-- `fs.writeFileSync`: create or truncate `p`, leaving it with exactly
`content`. -/
def writeFileFS (files : List (String × String)) (p content : String) :
    List (String × String) :=
  (p, content) :: files.filter (fun e => e.1 != p)

/-- `fs.appendFileSync`: append `content` to `p`, creating it when absent. -/
def appendFileFS (files : List (String × String)) (p content : String) :
    List (String × String) :=
  writeFileFS files p (((lookupFile files p).getD "") ++ content)

/-- `Array.prototype.join(sep)` on a list of strings. -/
def joinSep (sep : String) : List String → String
  | [] => ""
  | [x] => x
  | x :: xs => x ++ sep ++ joinSep sep xs

/-! ### Tokenizer (`parseCommand` in src/app/main.ts lines 108-151) -/

/-- Character-level scan of `parseCommand`: one pass with an accumulator
`cur` and a quote state (`none`, single, or double).  A backslash followed
by another character escapes according to the quote state (consuming two
characters when it escapes); quote characters toggle the quote state;
a space outside quotes flushes a non-empty accumulator; the trailing
accumulator is flushed at end of input (a backslash that is the final
character is kept literally and flushed together with the accumulator,
inlining the end-of-input flush of the source loop). -/
def tokenizeChars : List Char → List Char → Option Char → List (List Char)
  | [], cur, _ => if cur.isEmpty then [] else [cur]
  | ['\\'], cur, _ => [cur ++ ['\\']]
  | '\\' :: next :: rest, cur, quote =>
    if quote = none then
      tokenizeChars rest (cur ++ [next]) quote
    else if quote = some '"' ∧ (next = '"' ∨ next = '\\') then
      tokenizeChars rest (cur ++ [next]) quote
    else
      tokenizeChars (next :: rest) (cur ++ ['\\']) quote
  | c :: rest, cur, quote =>
    if (c = '\'' ∨ c = '"') ∧ quote = none then
      tokenizeChars rest cur (some c)
    else if quote = some c then
      tokenizeChars rest cur none
    else if c = ' ' ∧ quote = none then
      if cur.isEmpty then tokenizeChars rest [] quote
      else cur :: tokenizeChars rest [] quote
    else
      tokenizeChars rest (cur ++ [c]) quote

/-- `parseCommand(input)`: raw line to token list. -/
def parseCommand (input : String) : List String :=
  (tokenizeChars input.toList [] none).map (fun w => String.mk w)

/-! ### Redirection extractor (`parseRedirection`, src/unnamed/part_000
lines 252-284, identical inline logic in src/app/main.ts lines 184-212) -/

/-- Output of the redirection extractor: the command tokens before the
first redirection operator and at most one captured target path (the
empty string plays the role of the absent/`undefined` value, as in the
source where all four variables start as `""`). -/
structure ParsedRedir where
  cmdParts : List String
  redirectFile : String := ""
  appendFile : String := ""
  stderrRedirectFile : String := ""
  stderrAppendFile : String := ""
deriving DecidableEq

/-- Left-to-right scan for the first redirection operator; everything
before it becomes `cmdParts` and the token following it (if any) becomes
the corresponding target path. -/
def parseRedirection : List String → ParsedRedir
  | [] => { cmdParts := [] }
  | t :: rest =>
    if t = ">" ∨ t = "1>" then
      { cmdParts := [], redirectFile := rest.getD 0 "" }
    else if t = ">>" ∨ t = "1>>" then
      { cmdParts := [], appendFile := rest.getD 0 "" }
    else if t = "2>" then
      { cmdParts := [], stderrRedirectFile := rest.getD 0 "" }
    else if t = "2>>" then
      { cmdParts := [], stderrAppendFile := rest.getD 0 "" }
    else
      let p := parseRedirection rest
      { p with cmdParts := t :: p.cmdParts }

/-- The six redirection operator tokens recognised by the extractor. -/
def isRedirOp (t : String) : Bool :=
  t == ">" || t == "1>" || t == ">>" || t == "1>>" || t == "2>" || t == "2>>"

/-- The four target fields of a `ParsedRedir`, as a tuple. -/
def redirTargets (p : ParsedRedir) : String × String × String × String :=
  (p.redirectFile, p.appendFile, p.stderrRedirectFile, p.stderrAppendFile)

/-- Spec-side description of which field the first operator assigns:
stdout-truncate, stdout-append, stderr-truncate or stderr-append. -/
def opAssign (op pathTok : String) : String × String × String × String :=
  if op = ">" ∨ op = "1>" then (pathTok, "", "", "")
  else if op = ">>" ∨ op = "1>>" then ("", pathTok, "", "")
  else if op = "2>" then ("", "", pathTok, "")
  else ("", "", "", pathTok)

/-! ### Command resolver (`isBuiltin` / `findCommand`,
src/app/builtins.ts lines 30-55, src/app/main.ts lines 396-398, 460-472) -/

/-- The fixed builtin set. -/
def builtinNames : List String := ["echo", "exit", "type", "pwd", "cd", "history"]

/-- `isBuiltin(cmd)`: membership in the fixed builtin set. -/
def isBuiltin (cmd : String) : Bool :=
  builtinNames.contains cmd

/-- `path.join(dir, name)` for the plain directory/file case. -/
def pathJoin (dir name : String) : String :=
  dir ++ "/" ++ name

/-- `fs.statSync` over the modelled filesystem (`none` models the thrown
`ENOENT`, caught by the source's empty `catch`). -/
def statFS (fs : List (String × FileStat)) (p : String) : Option FileStat :=
  (fs.find? (fun e => e.1 == p)).map (fun e => e.2)

/-- `process.env.PATH?.split(path.delimiter) || []`: the ordered PATH
directory list, empty when `PATH` is unset. -/
def splitPath (pathVar : Option String) : List String :=
  match pathVar with
  | none => []
  | some p => (p.toList.splitOn ':').map (fun w => String.mk w)

/-- The loop body of `findCommand`: walk the PATH directories in listed
order and return the first `dir/cmd` that stats as a regular file with an
execute bit. -/
def findCommandDirs (fs : List (String × FileStat)) (cmd : String) :
    List String → Option String
  | [] => none
  | dir :: rest =>
    match statFS fs (pathJoin dir cmd) with
    | some stt =>
      if stt.isFile && (stt.mode &&& 0o111 != 0) then some (pathJoin dir cmd)
      else findCommandDirs fs cmd rest
    | none => findCommandDirs fs cmd rest

/-- `findCommand(cmd)`: PATH search for an external executable. -/
def findCommand (fs : List (String × FileStat)) (pathVar : Option String)
    (cmd : String) : Option String :=
  findCommandDirs fs cmd (splitPath pathVar)

/-- Spec-side candidate check: `dir/cmd` exists, is a regular file, and
has some execute-permission bit set. -/
def execCandidate (fs : List (String × FileStat)) (dir cmd : String) : Bool :=
  match statFS fs (pathJoin dir cmd) with
  | some stt => stt.isFile && (stt.mode &&& 0o111 != 0)
  | none => false

/-! ### History and builtin dispatch (src/app/history.ts lines 75-122,
src/app/main.ts lines 400-458) -/

/-- JavaScript whitespace test used by `String.prototype.trim` (restricted
to the whitespace characters that can occur in this shell's data). -/
def isJsSpace (c : Char) : Bool :=
  c = ' ' ∨ c = '\t' ∨ c = '\n' ∨ c = '\r'

/-- `String.prototype.trim` at the character-list level. -/
def trimChars (cs : List Char) : List Char :=
  ((cs.dropWhile isJsSpace).reverse.dropWhile isJsSpace).reverse

/-- Value of a list of decimal digit characters. -/
def digitsVal (cs : List Char) : Nat :=
  cs.foldl (fun acc c => acc * 10 + (c.toNat - 48)) 0

/-- Leading decimal-digit prefix, `none` when there is none. -/
def leadingDigits (cs : List Char) : Option Nat :=
  let ds := cs.takeWhile (fun c => c.isDigit)
  if ds.isEmpty then none else some (digitsVal ds)

/-- `parseInt(s, 10)`: optional sign followed by a longest digit prefix;
`none` models `NaN`. -/
def jsParseInt (s : String) : Option Int :=
  match s.toList with
  | '-' :: rest => (leadingDigits rest).map (fun n => -(n : Int))
  | '+' :: rest => (leadingDigits rest).map (fun n => (n : Int))
  | cs => (leadingDigits cs).map (fun n => (n : Int))

/-- One rendered history line per entry: four spaces, the 1-based index,
two spaces, the entry, newline. -/
def renderHistLines : List String → Nat → String
  | [], _ => ""
  | e :: rest, idx =>
    "    " ++ toString (idx + 1) ++ "  " ++ e ++ "\n" ++ renderHistLines rest (idx + 1)

/-- The no-flag `history [n]` display: the last `n` entries (all when the
argument is absent), numbered by their position in the full history.  A
non-numeric argument parses to `NaN`, which makes the source's loop run
zero times; a negative argument pushes the start index past the end. -/
def historyDisplay (hist : List String) (arg : String) : String :=
  if arg = "" then renderHistLines hist 0
  else
    match jsParseInt arg with
    | none => ""
    | some limit =>
      let start : Int := max 0 ((hist.length : Int) - limit)
      renderHistLines (hist.drop start.toNat) start.toNat

/-- The `history` builtin over `cmd = ["history", ...args]`: `-r` loads
non-blank lines from a file into memory (index untouched), `-w` overwrites
a file with the whole history, `-a` appends exactly the entries since
`lastAppendedIndex` and advances the index (no-op when nothing is new),
anything else is the display form.  File errors are swallowed by the
source's empty `catch` blocks, modelled as no-ops. -/
def executeHistoryCommand (cmd : List String) (st : ShellState) :
    String × ShellState :=
  let a1 := cmd.getD 1 ""
  let a2 := cmd.getD 2 ""
  if a1 = "-r" ∧ a2 ≠ "" then
    match lookupFile st.files a2 with
    | some content =>
      let lines := ((content.toList.splitOn '\n').filter
        (fun l => trimChars l ≠ [])).map (fun w => String.mk w)
      ("", { st with commandHistory := st.commandHistory ++ lines })
    | none => ("", st)
  else if a1 = "-w" ∧ a2 ≠ "" then
    ("", { st with files := writeFileFS st.files a2 (joinSep "\n" st.commandHistory ++ "\n") })
  else if a1 = "-a" ∧ a2 ≠ "" then
    let newCommands := st.commandHistory.drop st.lastAppendedIndex
    if newCommands.isEmpty then ("", st)
    else
      ("", { st with
        files := appendFileFS st.files a2 (joinSep "\n" newCommands ++ "\n"),
        lastAppendedIndex := st.commandHistory.length })
  else
    (historyDisplay st.commandHistory a1, st)

/-- The builtin dispatcher used inside pipelines (`executeBuiltin`,
src/app/main.ts lines 400-458): it handles only `echo`, `history` and
`type`, returning the empty string (and leaving the state untouched) for
every other command, including `exit`, `pwd` and `cd`. -/
def executeBuiltin (env : Env) (cmd : List String) (st : ShellState) :
    String × ShellState :=
  let command := cmd.getD 0 ""
  if command = "echo" then
    (joinSep " " (cmd.drop 1) ++ "\n", st)
  else if command = "history" then
    executeHistoryCommand cmd st
  else if command = "type" then
    let target := cmd.getD 1 ""
    if isBuiltin target then (target ++ " is a shell builtin\n", st)
    else
      match findCommand env.fs env.pathVar target with
      | some p => (target ++ " is " ++ p ++ "\n", st)
      | none => (target ++ ": not found\n", st)
  else
    ("", st)

/-! ### Pipeline orchestrator (src/app/main.ts lines 476-573,
src/app/pipeline.ts) -/

/-- `commands.some(cmd => isBuiltin(cmd[0]))`. -/
def hasBuiltinStage (commands : List (List String)) : Bool :=
  commands.any (fun cmd => isBuiltin (cmd.getD 0 ""))

/-- The two pipeline execution strategies. -/
inductive Strategy where
  | sequentialRelay
  | concurrentPiped
deriving DecidableEq

/-- The strategy the orchestrator selects for a pipeline. -/
def chosenStrategy (commands : List (List String)) : Strategy :=
  if hasBuiltinStage commands then .sequentialRelay else .concurrentPiped

/-- `executePipelineRecursive(commands, input)`: the Sequential-Relay
strategy.  A builtin stage runs in-process (ignoring the buffered input)
and its returned text becomes the next stage's input; an external stage is
resolved and spawned (the oracle supplies its stdout for non-final stages,
the final stage writes directly to the inherited terminal); an unresolved
external stage prints the not-found line and drops all remaining stages;
the base case writes any remaining buffered input to stdout. -/
def executePipelineRecursive (env : Env) :
    List (List String) → String → ShellState → List Event × ShellState
  | [], input, st =>
    (if input ≠ "" then [Event.stdoutWrite input] else [], st)
  | cmd :: rest, input, st =>
    let cmdName := cmd.getD 0 ""
    if isBuiltin cmdName then
      let r := executeBuiltin env cmd st
      executePipelineRecursive env rest r.1 r.2
    else
      match findCommand env.fs env.pathVar cmdName with
      | none => ([Event.printLine (cmdName ++ ": command not found")], st)
      | some cmdPath =>
        if rest.isEmpty then
          ([Event.spawnProcess cmdPath (cmd.drop 1)], st)
        else
          let out := env.oracle cmdPath (cmd.drop 1) input
          let r := executePipelineRecursive env rest out st
          (Event.spawnProcess cmdPath (cmd.drop 1) :: r.1, r.2)

/-- The Concurrent-Piped strategy (`executeExternalPipeline$` /
the all-external branch of `executeMultiPipeline`): a single loop that,
for each stage in order, resolves the command and immediately spawns it;
the first unresolved stage prints the not-found line and returns, after
which the already-spawned processes are left connected.  The pipe
splicing and the wait on the last process produce no events. -/
def executeExternalPipeline (env : Env) : List (List String) → List Event
  | [] => []
  | cmd :: rest =>
    let cmdName := cmd.getD 0 ""
    match findCommand env.fs env.pathVar cmdName with
    | none => [Event.printLine (cmdName ++ ": command not found")]
    | some cmdPath =>
      Event.spawnProcess cmdPath (cmd.drop 1) :: executeExternalPipeline env rest

/-- `executeMultiPipeline(commands)`: strategy selection and dispatch. -/
def executeMultiPipeline (env : Env) (commands : List (List String))
    (st : ShellState) : List Event × ShellState :=
  if hasBuiltinStage commands then
    executePipelineRecursive env commands "" st
  else
    (executeExternalPipeline env commands, st)

/-! ### Single-command echo with redirection (`handleOutput$`,
src/unnamed/part_000 lines 286-305; same logic inline in
src/app/main.ts lines 231-251) and the top-level `exit` path
(src/app/main.ts lines 216-230) -/

/-- `handleOutput$(output, redirection)` for the `echo` builtin: stdout
redirections write/append the text plus newline to the file; stderr
redirections print the text to the terminal and create/truncate the file
to empty (`2>`) or create it empty only when absent (`2>>`); otherwise
the text is printed to the terminal. -/
def handleOutput (output : String) (r : ParsedRedir)
    (files : List (String × String)) : List Event × List (String × String) :=
  if r.redirectFile ≠ "" then
    ([], writeFileFS files r.redirectFile (output ++ "\n"))
  else if r.appendFile ≠ "" then
    ([], appendFileFS files r.appendFile (output ++ "\n"))
  else if r.stderrRedirectFile ≠ "" then
    ([Event.printLine output], writeFileFS files r.stderrRedirectFile "")
  else if r.stderrAppendFile ≠ "" then
    ([Event.printLine output],
      if (lookupFile files r.stderrAppendFile).isSome then files
      else writeFileFS files r.stderrAppendFile "")
  else
    ([Event.printLine output], files)

/-- The `echo` command with a parsed redirection: join the arguments with
single spaces and hand the text to `handleOutput`. -/
def execEchoCommand (cmdParts : List String) (r : ParsedRedir)
    (files : List (String × String)) : List Event × List (String × String) :=
  handleOutput (joinSep " " (cmdParts.drop 1)) r files

/-- The top-level `exit [code]` command: flush unsaved history to
`HISTFILE` when configured, then terminate the process.  This is the only
place in the embedding that emits `Event.exitShell`. -/
def execExitCommand (env : Env) (parts : List String) (st : ShellState) :
    List Event × ShellState :=
  let a1 := parts.getD 1 ""
  let exitCode : Int := if a1 ≠ "" then (jsParseInt a1).getD 0 else 0
  let st2 :=
    match env.histfile with
    | some hf =>
      let newCommands := st.commandHistory.drop st.lastAppendedIndex
      if newCommands.isEmpty then st
      else { st with files := appendFileFS st.files hf (joinSep "\n" newCommands ++ "\n") }
    | none => st
  ([Event.exitShell exitCode], st2)

/-! ### Concrete test fixtures used by witnesses and counterexamples -/

/-- A filesystem with a single executable, `/bin/cat`. -/
def fsEx : List (String × FileStat) :=
  [("/bin/cat", { isFile := true, mode := 0o755 })]

/-- Environment whose PATH holds `/bin` and whose only external program,
`cat`, copies its stdin to its stdout. -/
def envEx : Env :=
  { fs := fsEx, pathVar := some "/bin", histfile := none,
    oracle := fun _ _ input => input }

/-- An empty initial session state. -/
def st0 : ShellState :=
  { commandHistory := [], lastAppendedIndex := 0, files := [] }

/-- A session state with two history entries, none persisted yet. -/
def stH : ShellState :=
  { commandHistory := ["a", "b"], lastAppendedIndex := 0, files := [] }

/-! ## Theorems -/

/-- One step of the PATH walk, phrased with the candidate check. -/
theorem findCommandDirs_cons (fs : List (String × FileStat)) (cmd dir : String)
    (rest : List String) :
    findCommandDirs fs cmd (dir :: rest) =
      if execCandidate fs dir cmd then some (pathJoin dir cmd)
      else findCommandDirs fs cmd rest := by
  by_cases hc : execCandidate fs dir cmd = true
  · rw [if_pos hc]
    unfold execCandidate at hc
    simp only [findCommandDirs]
    rcases hs : statFS fs (pathJoin dir cmd) with _ | stt
    · rw [hs] at hc; simp at hc
    · rw [hs] at hc
      exact if_pos hc
  · rw [if_neg hc]
    unfold execCandidate at hc
    simp only [findCommandDirs]
    rcases hs : statFS fs (pathJoin dir cmd) with _ | stt
    · rfl
    · rw [hs] at hc
      exact if_neg hc

/-- The PATH walk returns the first directory, in list order, whose
candidate passes the executable check. -/
theorem findCommandDirs_eq_findSome (fs : List (String × FileStat)) (cmd : String) :
    ∀ dirs : List String,
      findCommandDirs fs cmd dirs =
        dirs.findSome? (fun dir =>
          if execCandidate fs dir cmd then some (pathJoin dir cmd) else none)
  | [] => rfl
  | dir :: rest => by
    rw [findCommandDirs_cons, List.findSome?_cons]
    by_cases hc : execCandidate fs dir cmd = true
    · simp [hc]
    · simp only [Bool.not_eq_true] at hc
      simp [hc, findCommandDirs_eq_findSome fs cmd rest]

/-- C4: for every fixed filesystem and PATH, `findCommand` equals the
left-to-right first match over the PATH directory list of the
"exists, regular file, any execute bit" candidate check, and resolves to
`none` when `PATH` is unset.  (Determinism across repeated calls is
inherent: the embedding is a pure function of the unchanged state.) -/
theorem findCommand_first_match_in_path_order (fs : List (String × FileStat))
    (pathVar : Option String) (cmd : String) :
    findCommand fs pathVar cmd =
      (splitPath pathVar).findSome? (fun dir =>
        if execCandidate fs dir cmd then some (pathJoin dir cmd) else none)
    ∧ findCommand fs none cmd = none :=
  ⟨findCommandDirs_eq_findSome fs cmd (splitPath pathVar), rfl⟩

/-- C2: the orchestrator picks Sequential-Relay exactly when some stage's
command name is in the builtin set, Concurrent-Piped exactly otherwise,
and `executeMultiPipeline` runs the whole pipeline under the single
selected strategy. -/
theorem strategy_selection (commands : List (List String)) :
    (chosenStrategy commands = Strategy.sequentialRelay ↔
      ∃ cmd ∈ commands, cmd.getD 0 "" ∈ builtinNames)
    ∧ (chosenStrategy commands = Strategy.concurrentPiped ↔
      ¬∃ cmd ∈ commands, cmd.getD 0 "" ∈ builtinNames)
    ∧ ∀ env st, executeMultiPipeline env commands st =
        (match chosenStrategy commands with
          | Strategy.sequentialRelay => executePipelineRecursive env commands "" st
          | Strategy.concurrentPiped => (executeExternalPipeline env commands, st)) := by
  have hmem : (hasBuiltinStage commands = true) ↔
      ∃ cmd ∈ commands, cmd.getD 0 "" ∈ builtinNames := by
    simp [hasBuiltinStage, isBuiltin, List.any_eq_true, List.getD_eq_getElem?_getD]
  by_cases h : hasBuiltinStage commands = true
  · have hcs : chosenStrategy commands = Strategy.sequentialRelay := by
      simp [chosenStrategy, h]
    refine ⟨iff_of_true hcs (hmem.mp h),
      iff_of_false (fun hcc => by simp [hcs] at hcc) (not_not_intro (hmem.mp h)), ?_⟩
    intro env st
    rw [hcs]
    simp [executeMultiPipeline, h]
  · have hcs : chosenStrategy commands = Strategy.concurrentPiped := by
      simp [chosenStrategy, h]
    have hno : ¬∃ cmd ∈ commands, cmd.getD 0 "" ∈ builtinNames := fun hex => h (hmem.mpr hex)
    refine ⟨iff_of_false (fun hcc => by simp [hcs] at hcc) hno, iff_of_true hcs hno, ?_⟩
    intro env st
    rw [hcs]
    simp [executeMultiPipeline, h]

/-- C3: in a Sequential-Relay pipeline, a stage that is neither builtin
nor resolvable yields exactly the not-found diagnostic, executes none of
the remaining stages (the returned trace contains no further spawn,
print, or write), leaves the state untouched, and returns (signalling
completion). -/
theorem relay_unresolved_aborts (env : Env) (name : String) (args : List String)
    (rest : List (List String)) (input : String) (st : ShellState)
    (hB : isBuiltin name = false)
    (hF : findCommand env.fs env.pathVar name = none) :
    executePipelineRecursive env ((name :: args) :: rest) input st =
      ([Event.printLine (name ++ ": command not found")], st) := by
  simp [executePipelineRecursive, hB, hF]

/-- Witness for C3: `echo hi | nosuchcmd | cat` prints only
`nosuchcmd: command not found`; `cat` is never spawned, so it produces no
output. -/
theorem relay_unresolved_aborts_witness :
    executePipelineRecursive envEx [["echo", "hi"], ["nosuchcmd"], ["cat"]] "" st0 =
      ([Event.printLine "nosuchcmd: command not found"], st0) :=
  calc executePipelineRecursive envEx [["echo", "hi"], ["nosuchcmd"], ["cat"]] "" st0
      = executePipelineRecursive envEx [["nosuchcmd"], ["cat"]] "hi\n" st0 := rfl
    _ = ([Event.printLine ("nosuchcmd" ++ ": command not found")], st0) :=
        relay_unresolved_aborts envEx "nosuchcmd" [] [["cat"]] "hi\n" st0 (by decide) rfl
    _ = ([Event.printLine "nosuchcmd: command not found"], st0) := rfl

/-- C1 counterexample: in the Concurrent-Piped executor, stage `cat`
resolves and is spawned before stage `nope` is even looked at; when
`nope` then fails to resolve, the not-found line is printed, yet a
process has already been spawned — refuting "spawns no process at all". -/
theorem concurrent_resolve_all_first_refuted :
    findCommand envEx.fs envEx.pathVar "nope" = none
    ∧ executeExternalPipeline envEx [["cat"], ["nope"]] =
        [Event.spawnProcess "/bin/cat" [], Event.printLine "nope: command not found"]
    ∧ (executeExternalPipeline envEx [["cat"], ["nope"]]).any
        (fun e => e.isSpawnEvent) = true :=
  ⟨rfl, rfl, rfl⟩

/-- C1 (amended): the Concurrent-Piped executor resolves and spawns
stage by stage in order; at the first unresolved stage it prints
`name: command not found` and stops, spawning no process for that stage
or any later one — but every stage before it has already been spawned. -/
theorem concurrent_spawns_prefix_then_aborts (env : Env) (pre : List (List String))
    (bad : List String) (post : List (List String))
    (hpre : ∀ c ∈ pre, (findCommand env.fs env.pathVar (c.getD 0 "")).isSome = true)
    (hbad : findCommand env.fs env.pathVar (bad.getD 0 "") = none) :
    executeExternalPipeline env (pre ++ bad :: post) =
      pre.map (fun c => Event.spawnProcess
        ((findCommand env.fs env.pathVar (c.getD 0 "")).getD "") (c.drop 1))
      ++ [Event.printLine ((bad.getD 0 "") ++ ": command not found")] := by
  induction pre with
  | nil =>
    simp only [List.nil_append, List.map_nil, executeExternalPipeline, hbad]
  | cons c pre ih =>
    obtain ⟨p, hp⟩ := Option.isSome_iff_exists.mp (hpre c (by simp))
    have ih2 := ih (fun x hx => hpre x (by simp [hx]))
    simp only [List.cons_append, executeExternalPipeline, hp, List.append_eq, ih2,
      List.map_cons, Option.getD_some]

/-- Witness for the amended C1 on a concrete pipeline `cat | nope | cat`. -/
theorem concurrent_spawns_prefix_then_aborts_witness :
    executeExternalPipeline envEx [["cat"], ["nope"], ["cat"]] =
      [Event.spawnProcess "/bin/cat" [], Event.printLine "nope: command not found"] := by
  have h := concurrent_spawns_prefix_then_aborts envEx [["cat"]] ["nope"] [["cat"]]
    (by decide) (by decide)
  simpa using h

/-- The Sequential-Relay executor never emits a `process.exit` event. -/
theorem relay_no_exit_events (env : Env) :
    ∀ (cmds : List (List String)) (input : String) (st : ShellState),
      ∀ e ∈ (executePipelineRecursive env cmds input st).1, e.isExitEvent = false
  | [], input, st => by
    by_cases h : input = "" <;>
      simp [executePipelineRecursive, h, Event.isExitEvent]
  | cmd :: rest, input, st => by
    simp only [executePipelineRecursive]
    by_cases hb : isBuiltin (cmd.getD 0 "") = true
    · simp only [hb, if_true]
      exact relay_no_exit_events env rest _ _
    · simp only [Bool.not_eq_true] at hb
      simp only [hb, Bool.false_eq_true, if_false]
      cases hf : findCommand env.fs env.pathVar (cmd.getD 0 "") with
      | none => simp [Event.isExitEvent]
      | some p =>
        by_cases hr : rest.isEmpty = true
        · simp [hr, Event.isExitEvent]
        · simp only [Bool.not_eq_true] at hr
          simp only [hr, Bool.false_eq_true, if_false]
          intro e he
          rcases List.mem_cons.mp he with h1 | h2
          · subst h1; rfl
          · exact relay_no_exit_events env rest _ _ e h2

/-- C9: the builtin dispatcher used inside pipelines handles only `echo`,
`history` and `type`: any other command — in particular `exit`, `pwd`
and `cd` — returns the empty string with the session state (history,
append index, files) untouched; moreover no Sequential-Relay pipeline
ever emits a `process.exit` event, so `exit` in a pipeline never ends the
session. -/
theorem pipeline_builtin_dispatcher_inert :
    (∀ (env : Env) (cmd : List String) (st : ShellState),
      cmd.getD 0 "" ≠ "echo" → cmd.getD 0 "" ≠ "history" → cmd.getD 0 "" ≠ "type" →
      executeBuiltin env cmd st = ("", st))
    ∧ (∀ (env : Env) (cmds : List (List String)) (input : String) (st : ShellState),
      ((executePipelineRecursive env cmds input st).1.all
        (fun e => !e.isExitEvent)) = true) := by
  constructor
  · intro env cmd st h1 h2 h3
    simp only [executeBuiltin]
    rw [if_neg h1, if_neg h2, if_neg h3]
  · intro env cmds input st
    rw [List.all_eq_true]
    intro e he
    simp [relay_no_exit_events env cmds input st e he]

/-- Witness for C9: `exit`, `pwd` and `cd` as pipeline stages are inert. -/
theorem pipeline_builtin_dispatcher_inert_witness :
    executeBuiltin envEx ["exit", "1"] stH = ("", stH)
    ∧ executeBuiltin envEx ["pwd"] stH = ("", stH)
    ∧ executeBuiltin envEx ["cd", "/tmp"] stH = ("", stH) :=
  ⟨pipeline_builtin_dispatcher_inert.1 envEx ["exit", "1"] stH
      (by decide) (by decide) (by decide),
    pipeline_builtin_dispatcher_inert.1 envEx ["pwd"] stH
      (by decide) (by decide) (by decide),
    pipeline_builtin_dispatcher_inert.1 envEx ["cd", "/tmp"] stH
      (by decide) (by decide) (by decide)⟩

/-- A token that is not a redirection operator takes the extractor's
fall-through branch. -/
theorem parseRedirection_cons_notOp (t : String) (rest : List String)
    (h : isRedirOp t = false) :
    parseRedirection (t :: rest) =
      { parseRedirection rest with cmdParts := t :: (parseRedirection rest).cmdParts } := by
  simp only [isRedirOp, Bool.or_eq_false_iff, beq_eq_false_iff_ne, ne_eq] at h
  obtain ⟨⟨⟨⟨⟨h1, h2⟩, h3⟩, h4⟩, h5⟩, h6⟩ := h
  simp only [parseRedirection]
  rw [if_neg (by tauto), if_neg (by tauto), if_neg h5, if_neg h6]

/-- The extractor's behaviour at a leading operator token: no command
tokens, and the field selected by the operator holds the next token. -/
theorem parseRedirection_cons_op (op : String) (rest : List String)
    (hop : isRedirOp op = true) :
    (parseRedirection (op :: rest)).cmdParts = []
    ∧ redirTargets (parseRedirection (op :: rest)) = opAssign op (rest.getD 0 "") := by
  simp only [isRedirOp, Bool.or_eq_true, beq_iff_eq] at hop
  rcases hop with ((((h | h) | h) | h) | h) | h <;> subst h <;>
    simp [parseRedirection, redirTargets, opAssign]

/-- The extractor skips an operator-free prefix, keeping it as the
command tokens. -/
theorem parseRedirection_append (pre : List String) (op : String) (rest : List String)
    (hpre : ∀ t ∈ pre, isRedirOp t = false) (hop : isRedirOp op = true) :
    parseRedirection (pre ++ op :: rest) =
      { parseRedirection (op :: rest) with cmdParts := pre } := by
  induction pre with
  | nil =>
    rw [List.nil_append, ← (parseRedirection_cons_op op rest hop).1]
  | cons t pre ih =>
    rw [List.cons_append, parseRedirection_cons_notOp t _ (hpre t (by simp)),
      ih (fun x hx => hpre x (by simp [hx]))]

/-- C5: the redirection extractor honours exactly the first occurrence of
one of `>`, `1>`, `>>`, `1>>`, `2>`, `2>>`: the command tokens become the
tokens strictly before it, the captured path is the token immediately
after it (and nothing beyond that token influences the result), and a
token list without any operator is returned unchanged as the command
tokens. -/
theorem redirection_extractor_first_operator :
    (∀ ts : List String, (∀ t ∈ ts, isRedirOp t = false) →
      parseRedirection ts = { cmdParts := ts })
    ∧ (∀ (pre : List String) (op : String) (rest : List String),
        (∀ t ∈ pre, isRedirOp t = false) → isRedirOp op = true →
        parseRedirection (pre ++ op :: rest) =
          { parseRedirection (op :: rest) with cmdParts := pre }
        ∧ (parseRedirection (op :: rest)).cmdParts = []
        ∧ redirTargets (parseRedirection (op :: rest)) = opAssign op (rest.getD 0 "")) := by
  constructor
  · intro ts
    induction ts with
    | nil => intro _; rfl
    | cons t rest ih =>
      intro h
      rw [parseRedirection_cons_notOp t rest (h t (by simp)),
        ih (fun x hx => h x (by simp [hx]))]
  · intro pre op rest hpre hop
    exact ⟨parseRedirection_append pre op rest hpre hop,
      (parseRedirection_cons_op op rest hop).1,
      (parseRedirection_cons_op op rest hop).2⟩

/-- Witness for C5 on `echo hi > out.txt junk`: command tokens are
`echo hi`, the captured path is `out.txt`, and the trailing junk is
ignored. -/
theorem redirection_extractor_first_operator_witness :
    parseRedirection ["echo", "hi", ">", "out.txt", "junk"] =
      { cmdParts := ["echo", "hi"], redirectFile := "out.txt" } := by
  have h := (redirection_extractor_first_operator.2 ["echo", "hi"] ">"
    ["out.txt", "junk"] (by decide) (by decide)).1
  simpa using h

/-- C8: `echo` with a stderr redirection prints its joined arguments to
the terminal (`Event.printLine` emits the text plus newline); under `2>`
the target file is created or truncated to empty, and under `2>>` it is
created empty only when absent while an existing file's contents are left
unchanged. -/
theorem echo_stderr_redirect_behavior (args : List String) (f : String)
    (files : List (String × String)) (hf : f ≠ "") :
    (execEchoCommand ("echo" :: args)
        { cmdParts := "echo" :: args, stderrRedirectFile := f } files =
        ([Event.printLine (joinSep " " args)], writeFileFS files f "")
      ∧ lookupFile (writeFileFS files f "") f = some "")
    ∧ (lookupFile files f = none →
        execEchoCommand ("echo" :: args)
          { cmdParts := "echo" :: args, stderrAppendFile := f } files =
          ([Event.printLine (joinSep " " args)], writeFileFS files f ""))
    ∧ (∀ c, lookupFile files f = some c →
        execEchoCommand ("echo" :: args)
          { cmdParts := "echo" :: args, stderrAppendFile := f } files =
          ([Event.printLine (joinSep " " args)], files)) := by
  have hlk : lookupFile (writeFileFS files f "") f = some "" := by
    simp [lookupFile, writeFileFS, List.find?]
  refine ⟨⟨?_, hlk⟩, ?_, ?_⟩
  · simp [execEchoCommand, handleOutput, hf]
  · intro hnone
    simp [execEchoCommand, handleOutput, hf, hnone]
  · intro c hc
    simp [execEchoCommand, handleOutput, hf, hc]

/-- Witness for C8 with `echo hello 2> e.txt` on an empty filesystem and
`echo hello 2>> e.txt` on a filesystem where `e.txt` already holds
`keep`. -/
theorem echo_stderr_redirect_behavior_witness :
    execEchoCommand ["echo", "hello"]
      { cmdParts := ["echo", "hello"], stderrRedirectFile := "e.txt" } [] =
      ([Event.printLine "hello"], [("e.txt", "")])
    ∧ execEchoCommand ["echo", "hello"]
        { cmdParts := ["echo", "hello"], stderrAppendFile := "e.txt" }
        [("e.txt", "keep")] =
      ([Event.printLine "hello"], [("e.txt", "keep")]) := by
  have h1 := (echo_stderr_redirect_behavior ["hello"] "e.txt" [] (by decide)).1.1
  have h2 := (echo_stderr_redirect_behavior ["hello"] "e.txt" [("e.txt", "keep")]
    (by decide)).2.2 "keep" rfl
  exact ⟨h1, h2⟩

/-- Unfolding step for `joinSep` on a list with at least two elements. -/
theorem joinSep_cons₂ (sep x y : String) (ys : List String) :
    joinSep sep (x :: y :: ys) = x ++ sep ++ joinSep sep (y :: ys) := rfl

/-- `join` distributes over append of non-empty lists, inserting one
separator at the seam. -/
theorem joinSep_append (sep : String) :
    ∀ a b : List String, a ≠ [] → b ≠ [] →
      joinSep sep (a ++ b) = joinSep sep a ++ sep ++ joinSep sep b
  | [], _, ha, _ => absurd rfl ha
  | [_], [], _, hb => absurd rfl hb
  | [_], _ :: _, _, _ => rfl
  | x :: y :: xs, b, _, hb => by
    have ih := joinSep_append sep (y :: xs) b (by simp) hb
    calc joinSep sep ((x :: y :: xs) ++ b)
        = x ++ sep ++ joinSep sep ((y :: xs) ++ b) := rfl
      _ = x ++ sep ++ (joinSep sep (y :: xs) ++ sep ++ joinSep sep b) := by rw [ih]
      _ = joinSep sep (x :: y :: xs) ++ sep ++ joinSep sep b := by
          rw [joinSep_cons₂]
          simp [String.append_assoc]

/-- Appending to a file leaves it holding its previous contents (empty
when absent) followed by the appended text. -/
theorem lookupFile_appendFileFS (files : List (String × String)) (p c : String) :
    lookupFile (appendFileFS files p c) p =
      some (((lookupFile files p).getD "") ++ c) := by
  simp [appendFileFS, writeFileFS, lookupFile, List.find?]

/-- `history -a file` in closed form: a no-op when nothing is new,
otherwise one append of the new slice and an index advance. -/
theorem executeBuiltin_history_append (env : Env) (f : String) (st : ShellState)
    (hf : f ≠ "") :
    executeBuiltin env ["history", "-a", f] st =
      (if (st.commandHistory.drop st.lastAppendedIndex).isEmpty then ("", st)
       else
        ("", { st with
          files := appendFileFS st.files f
            (joinSep "\n" (st.commandHistory.drop st.lastAppendedIndex) ++ "\n"),
          lastAppendedIndex := st.commandHistory.length })) := by
  simp [executeBuiltin, executeHistoryCommand, hf]

/-- C7: `history -a file` appends exactly the entries from
`lastAppendedIndex` to the end (joined by newlines, with a trailing
newline), advances the index to the history length, and is a no-op when
nothing is new; two sequential `-a` calls around a history extension
append disjoint slices whose concatenation is a single in-order rendering
of all new entries — no duplicates. -/
theorem history_append_incremental (env : Env) (f : String) (st : ShellState)
    (hf : f ≠ "") :
    (st.commandHistory.drop st.lastAppendedIndex = [] →
      executeBuiltin env ["history", "-a", f] st = ("", st))
    ∧ (st.commandHistory.drop st.lastAppendedIndex ≠ [] →
      executeBuiltin env ["history", "-a", f] st =
        ("", { st with
          files := appendFileFS st.files f
            (joinSep "\n" (st.commandHistory.drop st.lastAppendedIndex) ++ "\n"),
          lastAppendedIndex := st.commandHistory.length }))
    ∧ (∀ ext : List String, st.lastAppendedIndex < st.commandHistory.length → ext ≠ [] →
        (executeBuiltin env ["history", "-a", f]
            { (executeBuiltin env ["history", "-a", f] st).2 with
              commandHistory := st.commandHistory ++ ext }).2.lastAppendedIndex =
          st.commandHistory.length + ext.length
        ∧ lookupFile (executeBuiltin env ["history", "-a", f]
            { (executeBuiltin env ["history", "-a", f] st).2 with
              commandHistory := st.commandHistory ++ ext }).2.files f =
          some (((lookupFile st.files f).getD "")
            ++ (joinSep "\n" ((st.commandHistory ++ ext).drop st.lastAppendedIndex) ++ "\n"))
        ∧ joinSep "\n" ((st.commandHistory ++ ext).drop st.lastAppendedIndex) ++ "\n" =
            (joinSep "\n" (st.commandHistory.drop st.lastAppendedIndex) ++ "\n")
            ++ (joinSep "\n" ext ++ "\n")) := by
  refine ⟨?_, ?_, ?_⟩
  · intro hnil
    rw [executeBuiltin_history_append env f st hf, hnil]
    rfl
  · intro hne
    rw [executeBuiltin_history_append env f st hf,
      if_neg (by simpa [List.isEmpty_iff] using hne)]
  · intro ext hlt hext
    have hne : st.commandHistory.drop st.lastAppendedIndex ≠ [] := by
      simpa [List.drop_eq_nil_iff] using Nat.not_le_of_lt hlt
    have hdropsplit : (st.commandHistory ++ ext).drop st.lastAppendedIndex =
        st.commandHistory.drop st.lastAppendedIndex ++ ext :=
      List.drop_append_of_le_length (Nat.le_of_lt hlt)
    have hjoin : joinSep "\n" ((st.commandHistory ++ ext).drop st.lastAppendedIndex) ++ "\n" =
        (joinSep "\n" (st.commandHistory.drop st.lastAppendedIndex) ++ "\n")
        ++ (joinSep "\n" ext ++ "\n") := by
      rw [hdropsplit, joinSep_append "\n" _ _ hne hext]
      simp [String.append_assoc]
    have hst1 : (executeBuiltin env ["history", "-a", f] st).2 =
        { st with
          files := appendFileFS st.files f
            (joinSep "\n" (st.commandHistory.drop st.lastAppendedIndex) ++ "\n"),
          lastAppendedIndex := st.commandHistory.length } := by
      rw [executeBuiltin_history_append env f st hf,
        if_neg (by simpa [List.isEmpty_iff] using hne)]
    have hdrop2 : ((st.commandHistory ++ ext).drop st.commandHistory.length) = ext := by
      rw [List.drop_append_of_le_length (Nat.le_refl _), List.drop_length,
        List.nil_append]
    have hst2 : executeBuiltin env ["history", "-a", f]
        { st with
          commandHistory := st.commandHistory ++ ext,
          files := appendFileFS st.files f
            (joinSep "\n" (st.commandHistory.drop st.lastAppendedIndex) ++ "\n"),
          lastAppendedIndex := st.commandHistory.length } =
        ("", { st with
          commandHistory := st.commandHistory ++ ext,
          files := appendFileFS (appendFileFS st.files f
              (joinSep "\n" (st.commandHistory.drop st.lastAppendedIndex) ++ "\n")) f
            (joinSep "\n" ext ++ "\n"),
          lastAppendedIndex := (st.commandHistory ++ ext).length }) := by
      rw [executeBuiltin_history_append env f _ hf]
      simp only [hdrop2]
      rw [if_neg (by simpa [List.isEmpty_iff] using hext)]
    have hcomb : ({ (executeBuiltin env ["history", "-a", f] st).2 with
        commandHistory := st.commandHistory ++ ext } : ShellState) =
        { commandHistory := st.commandHistory ++ ext,
          lastAppendedIndex := st.commandHistory.length,
          files := appendFileFS st.files f
            (joinSep "\n" (st.commandHistory.drop st.lastAppendedIndex) ++ "\n") } := by
      rw [hst1]
    refine ⟨?_, ?_, hjoin⟩
    · rw [hcomb, hst2]
      simp
    · rw [hcomb, hst2]
      simp only [lookupFile_appendFileFS, Option.getD_some, hjoin]
      rw [String.append_assoc]

/-- Witness for C7: starting from history `[a, b]` with nothing yet
persisted, `history -a h` writes `a\nb\n` and advances the index to 2;
after the history grows to `[a, b, c]`, a second `history -a h` leaves
the file holding `a\nb\nc\n` — all entries in order, no duplicates. -/
theorem history_append_incremental_witness :
    executeBuiltin envEx ["history", "-a", "h"] stH =
      ("", { commandHistory := ["a", "b"], lastAppendedIndex := 2,
             files := [("h", "a\nb\n")] })
    ∧ lookupFile (executeBuiltin envEx ["history", "-a", "h"]
        { (executeBuiltin envEx ["history", "-a", "h"] stH).2 with
          commandHistory := ["a", "b", "c"] }).2.files "h" = some "a\nb\nc\n" := by
  have h := history_append_incremental envEx "h" stH (by decide)
  constructor
  · have h2 := h.2.1 (by decide)
    simpa using h2
  · have h3 := (h.2.2 ["c"] (by decide) (by decide)).2.1
    simpa using h3

/-- Every token the scanner emits is a non-empty character list: flushes
are guarded by a non-emptiness test and the escape branches only grow the
accumulator. -/
theorem tokenizeChars_ne_nil :
    ∀ (l cur : List Char) (quote : Option Char),
      ∀ w ∈ tokenizeChars l cur quote, w ≠ [] := by
  intro l cur quote
  induction l, cur, quote using tokenizeChars.induct <;>
    (try simp_all [tokenizeChars]) <;>
    (split_ifs <;> simp_all)

/-- C10: the tokenizer never emits an empty-string token — only a
non-empty accumulator is flushed at a space boundary or at end of input;
in particular a quoted empty argument (input consisting of two single
quotes, or of two double quotes) produces no token at all. -/
theorem tokenizer_no_empty_tokens :
    (∀ s : String, (parseCommand s).all (fun t => t != "") = true)
    ∧ parseCommand (String.mk ['\'', '\'']) = []
    ∧ parseCommand (String.mk ['"', '"']) = [] := by
  refine ⟨?_, rfl, rfl⟩
  intro s
  rw [List.all_eq_true]
  intro t ht
  rcases List.mem_map.mp ht with ⟨w, hw, rfl⟩
  have hne := tokenizeChars_ne_nil s.toList [] none w hw
  simpa [String.ext_iff] using hne

/-- A space outside quotes flushes a non-empty accumulator. -/
theorem tok_space (rest cur : List Char) :
    tokenizeChars (' ' :: rest) cur none =
      if cur.isEmpty then tokenizeChars rest [] none
      else cur :: tokenizeChars rest [] none := rfl

/-- Any character other than backslash, quote characters and space is
accumulated verbatim when no quote is open. -/
theorem tok_other (c : Char) (rest cur : List Char) (h1 : c ≠ '\\') (h2 : c ≠ '\'')
    (h3 : c ≠ '"') (h4 : c ≠ ' ') :
    tokenizeChars (c :: rest) cur none = tokenizeChars rest (cur ++ [c]) none := by
  rw [tokenizeChars.eq_def]
  split <;> simp_all

/-- Modifying the head by a left append of nothing changes nothing. -/
theorem modifyHead_nil_append (l : List (List Char)) :
    l.modifyHead (fun w => [] ++ w) = l := by
  cases l <;> simp

/-- Modifying the head by the identity changes nothing. -/
theorem modifyHead_id_fun (l : List (List Char)) :
    l.modifyHead (fun w => w) = l := by
  cases l <;> simp

/-- On input free of quotes and backslashes the scanner computes exactly
"split at each space, prepend the pending accumulator to the first field,
drop empty fields". -/
theorem tokenize_no_specials :
    ∀ (l cur : List Char),
      (∀ c ∈ l, c ≠ '\'' ∧ c ≠ '"' ∧ c ≠ '\\') →
      tokenizeChars l cur none =
        ((l.splitOnP (fun c => c == ' ')).modifyHead (fun w => cur ++ w)).filter
          (fun w => !w.isEmpty)
  | [], cur, _ => by
    simp only [tokenizeChars, List.splitOnP_nil, List.modifyHead, List.filter,
      List.append_nil]
    by_cases h : cur.isEmpty <;> simp [h]
  | c :: rest, cur, h => by
    have hc := h c (by simp)
    have hrest : ∀ x ∈ rest, x ≠ '\'' ∧ x ≠ '"' ∧ x ≠ '\\' :=
      fun x hx => h x (by simp [hx])
    by_cases hs : c = ' '
    · subst hs
      rw [tok_space, List.splitOnP_cons]
      simp only [beq_self_eq_true, if_true]
      rw [tokenize_no_specials rest [] hrest]
      by_cases hcur : cur.isEmpty
      · have hcn : cur = [] := List.isEmpty_iff.mp hcur
        subst hcn
        simp [modifyHead_id_fun]
      · have hcn : ¬cur = [] := by simpa [List.isEmpty_iff] using hcur
        simp [modifyHead_id_fun, List.filter, hcn, hcur]
    · rw [tok_other c rest cur hc.2.2 hc.1 hc.2.1 hs, List.splitOnP_cons]
      have hb : (c == ' ') = false := by simpa using hs
      simp only [hb, Bool.false_eq_true, if_false]
      rw [tokenize_no_specials rest (cur ++ [c]) hrest]
      have hfun : ((fun w => cur ++ w) ∘ List.cons c) =
          (fun w : List Char => cur ++ [c] ++ w) := by
        funext w
        simp
      rw [List.modifyHead_modifyHead, hfun]

/-- C6: on any input without quote characters and without backslashes,
the tokenizer returns exactly the fields obtained by splitting the input
at spaces and dropping the empty fields (i.e. splitting on runs of
spaces), the trailing accumulator being flushed at end of input. -/
theorem tokenize_splits_on_spaces (s : String)
    (h : ∀ c ∈ s.toList, c ≠ '\'' ∧ c ≠ '"' ∧ c ≠ '\\') :
    parseCommand s =
      ((s.toList.splitOnP (fun c => c == ' ')).filter (fun w => !w.isEmpty)).map
        (fun w => String.mk w) := by
  unfold parseCommand
  rw [tokenize_no_specials s.toList [] h, modifyHead_nil_append]

/-- Witness for C6 on the input `ab  c` (two spaces). -/
theorem tokenize_splits_on_spaces_witness :
    parseCommand "ab  c" =
      ((("ab  c" : String).toList.splitOnP (fun c => c == ' ')).filter
        (fun w => !w.isEmpty)).map (fun w => String.mk w) :=
  tokenize_splits_on_spaces "ab  c" (by decide)

end Shell
